import Mathlib

/-!
# Verification of `src/utils.py` (deep_clustering)

Shallow embedding of the training-loop helper utilities in `src/utils.py`:
checkpoint persistence (`save_checkpoint`), the running-average tracker
(`AverageMeter`), top-k accuracy (`accuracy`), the two learning-rate
schedules (`CyclicLr`, `StepMinLr`) and the timing context manager
(`timed_operation`).

Conventions used throughout:
* Python numbers are modelled by `ℚ` (exact arithmetic); Python `/` on
  numbers raises `ZeroDivisionError` on a zero denominator, which is
  modelled by `Option`/`Except` where a claim depends on it.
* Python `%` on integers is floor-mod, i.e. `Int.fmod`; Python `int(x / y)`
  truncates toward zero, i.e. `Int.tdiv` (exact integer semantics, ignoring
  the float rounding of Python's true division on huge operands).
* The file system is a partial map from path strings to stored values;
  `torch.save`/`torch.load` round-tripping is modelled by storing the state
  value itself (serialization is the identity on opaque states).
-/

/-! ## CheckpointWriter: `save_checkpoint` (src/utils.py lines 8-12) -/

/-- A file system: partial map from path strings to stored contents. -/
def FileSystem (α : Type) : Type := String → Option α

/-- Is every character of the list a `'/'`?  (Helper for `dirname`.) -/
def allSlashes (cs : List Char) : Bool := cs.all (fun c => c = '/')

/-- Strip trailing `'/'` characters (POSIX `dirname` normalisation). -/
def rstripSlash (cs : List Char) : List Char :=
  (cs.reverse.dropWhile (fun c => c = '/')).reverse

/-- Model of `os.path.dirname` on the character list: everything up to (excluding)
the last `'/'`, with trailing slashes stripped unless the result consists
solely of slashes; `[]` when there is no `'/'`. -/
def dirnameChars (cs : List Char) : List Char :=
  let tailLen := (cs.reverse.takeWhile (fun c => c ≠ '/')).length
  let head := cs.take (cs.length - tailLen)
  if head.isEmpty then []
  else if allSlashes head then head
  else rstripSlash head

/-- Model of `os.path.dirname` for strings. -/
def dirname (p : String) : String := String.mk (dirnameChars p.toList)

/-- Model of `os.path.join` for one tail component (POSIX semantics): an absolute
tail replaces the head; otherwise a `'/'` separator is inserted unless the
head is empty or already ends in `'/'`. -/
def joinPath (head tl : String) : String :=
  if tl.toList.head? = some '/' then tl
  else if head = "" ∨ head.toList.getLast? = some '/' then head ++ tl
  else head ++ "/" ++ tl

/-- The path of the "best" duplicate written by `save_checkpoint`
(line 12): `os.path.join(os.path.dirname(filepath), 'model_best{}.pth.tar'
.format(best_suffix))`. -/
def bestPath (filepath best_suffix : String) : String :=
  joinPath (dirname filepath) ("model_best" ++ best_suffix ++ ".pth.tar")

/-- The function `save_checkpoint(state, is_best, filepath, best_suffix)` (lines 8-12)
acting on the file-system map: `torch.save` overwrites `filepath`, then if
`is_best` the file is duplicated via `shutil.copyfile` to `bestPath`.
`shutil.copyfile` raises `SameFileError` when source and destination are
the same path, modelled by `none`. -/
def save_checkpoint {α : Type} (fs : FileSystem α) (state : α) (is_best : Bool)
    (filepath best_suffix : String) : Option (FileSystem α) :=
  let fs1 : FileSystem α := fun q => if q = filepath then some state else fs q
  if is_best then
    let best := bestPath filepath best_suffix
    if best = filepath then none
    else some (fun q => if q = best then fs1 filepath else fs1 q)
  else some fs1

/-! ## RunningAverage: `AverageMeter` (src/utils.py lines 15-31) -/

/-- The mutable record of `AverageMeter`: current value `val`, running
mean `avg`, cumulative `sum` and cumulative `count`. -/
structure AverageMeter where
  val : ℚ
  avg : ℚ
  sum : ℚ
  count : ℚ
deriving DecidableEq

/-- Method `AverageMeter.reset` (lines 21-25): zeroes every field, regardless of
the prior state. -/
def AverageMeter.reset (_m : AverageMeter) : AverageMeter := ⟨0, 0, 0, 0⟩

/-- The state produced by `AverageMeter.__init__` (lines 18-19), which
just calls `reset`. -/
def AverageMeter.init : AverageMeter := ⟨0, 0, 0, 0⟩

/-- Method `AverageMeter.update(val, n)` (lines 27-31): `val := val`,
`sum += val * n`, `count += n`, `avg := sum / count`.  The final division
raises `ZeroDivisionError` when the updated count is zero, modelled by
`none`.  (`n` defaults to `1` at Python call sites.) -/
def AverageMeter.update (m : AverageMeter) (val n : ℚ) : Option AverageMeter :=
  let s := m.sum + val * n
  let c := m.count + n
  if c = 0 then none
  else some ⟨val, s / c, s, c⟩

/-- Run a sequence of `update (v, n)` calls, propagating a
`ZeroDivisionError` raised by any of them. -/
def runUpdates : AverageMeter → List (ℚ × ℚ) → Option AverageMeter
  | m, [] => some m
  | m, vw :: rest =>
    match m.update vw.1 vw.2 with
    | none => none
    | some m2 => runUpdates m2 rest

/-! ## Learning-rate schedules: `CyclicLr`, `StepMinLr` (lines 51-80) -/

/-- Configuration of `CyclicLr.__init__` (lines 52-58). -/
structure CyclicLr where
  start_epoch : ℤ
  init_lr : ℚ
  num_epochs_per_cycle : ℤ
  epochs_pro_decay : ℤ
  lr_decay_factor : ℚ
deriving DecidableEq

/-- Method `CyclicLr.__call__(epoch)` (lines 60-63):
`cur_epoch_in_cycle = (epoch - start_epoch) % num_epochs_per_cycle` and
`lr = init_lr * lr_decay_factor ** int(cur_epoch_in_cycle / epochs_pro_decay)`.
Python integer `%` is `Int.fmod`; `int(- / -)` is `Int.tdiv`. -/
def CyclicLr.call (c : CyclicLr) (epoch : ℤ) : ℚ :=
  let cur_epoch_in_cycle := (epoch - c.start_epoch).fmod c.num_epochs_per_cycle
  c.init_lr * c.lr_decay_factor ^ (cur_epoch_in_cycle.tdiv c.epochs_pro_decay)

/-- Configuration of `StepMinLr.__init__` (lines 67-73); `min_lr = none`
models Python `min_lr=None`. -/
structure StepMinLr where
  start_epoch : ℤ
  init_lr : ℚ
  epochs_pro_decay : ℤ
  lr_decay_factor : ℚ
  min_lr : Option ℚ
deriving DecidableEq

/-- The exponent `int(cur_epoch / epochs_pro_decay)` of line 77:
truncation toward zero (`Int.tdiv`). -/
def StepMinLr.steps (c : StepMinLr) (epoch : ℤ) : ℤ :=
  (epoch - c.start_epoch).tdiv c.epochs_pro_decay

/-- The learning rate of line 77, before the `min_lr` floor of lines 78-79. -/
def StepMinLr.rawLr (c : StepMinLr) (epoch : ℤ) : ℚ :=
  c.init_lr * c.lr_decay_factor ^ c.steps epoch

/-- Method `StepMinLr.__call__(epoch)` (lines 75-80): the stepped rate, floored
at `min_lr` when one is configured. -/
def StepMinLr.call (c : StepMinLr) (epoch : ℤ) : ℚ :=
  match c.min_lr with
  | none => c.rawLr epoch
  | some m => max (c.rawLr epoch) m

/-! ## Helper lemmas -/

/-- Truncation-toward-zero division (`Int.tdiv`) is monotone in the
numerator when the divisor is positive. -/
theorem tdiv_le_tdiv_of_le {a b d : ℤ} (hd : 0 < d) (h : a ≤ b) :
    a.tdiv d ≤ b.tdiv d := by
  rcases le_or_lt 0 a with ha | ha
  · rw [Int.tdiv_eq_ediv ha hd.le, Int.tdiv_eq_ediv (ha.trans h) hd.le]
    exact Int.ediv_le_ediv hd h
  · rcases le_or_lt 0 b with hb | hb
    · have h1 : a.tdiv d ≤ 0 := by
        have h2 := Int.tdiv_nonneg (a := -a) (b := d) (by omega) hd.le
        rw [Int.neg_tdiv] at h2
        omega
      exact h1.trans (Int.tdiv_nonneg hb hd.le)
    · have h3 : (-b).tdiv d ≤ (-a).tdiv d := by
        rw [Int.tdiv_eq_ediv (by omega) hd.le, Int.tdiv_eq_ediv (by omega) hd.le]
        exact Int.ediv_le_ediv hd (by omega)
      rw [Int.neg_tdiv, Int.neg_tdiv] at h3
      omega

/-- Truncating division `Int.tdiv` vanishes on a negative numerator smaller than the divisor
in magnitude (truncation toward zero, unlike floor division). -/
theorem tdiv_eq_zero_of_neg_window {x d : ℤ} (h1 : -d < x) (h2 : x < 0) :
    x.tdiv d = 0 := by
  have h3 : (-x).tdiv d = 0 := Int.tdiv_eq_zero_of_lt (by omega) (by omega)
  have h4 := Int.neg_tdiv (-x) d
  rw [neg_neg] at h4
  omega

/-- The state invariant carried by any successful run of `update` calls:
`sum` and `count` accumulate the weighted values and the weights, and
either no update ran or `avg` was set to `sum / count` by the last one. -/
theorem runUpdates_invariant (l : List (ℚ × ℚ)) (m0 m : AverageMeter)
    (h : runUpdates m0 l = some m) :
    m.sum = m0.sum + (l.map (fun vw => vw.1 * vw.2)).sum ∧
    m.count = m0.count + (l.map Prod.snd).sum ∧
    (m = m0 ∨ m.avg = m.sum / m.count) := by
  induction l generalizing m0 with
  | nil =>
    simp only [runUpdates, Option.some.injEq] at h
    subst h
    simp
  | cons vw rest ih =>
    simp only [runUpdates, AverageMeter.update] at h
    by_cases hc : m0.count + vw.2 = 0
    · simp [hc] at h
    · simp only [hc, if_neg, if_false] at h
      obtain ⟨h1, h2, h3⟩ := ih _ h
      refine ⟨?_, ?_, ?_⟩
      · simp only [List.map_cons, List.sum_cons] at h1 ⊢
        simp only [h1]
        ring
      · simp only [List.map_cons, List.sum_cons] at h2 ⊢
        simp only [h2]
        ring
      · rcases h3 with h3 | h3
        · subst h3
          right
          rfl
        · right
          exact h3

/-- C3: for every finite sequence of `update(v, w)` calls on an
`AverageMeter` starting from the reset state, if the sequence completes,
`sum = Σ vᵢ * wᵢ`, `count = Σ wᵢ`, and `avg = sum / count` whenever
`count > 0`; and `reset()` from any state zeroes `val`, `avg`, `sum`
and `count`. -/
theorem averageMeter_spec (l : List (ℚ × ℚ)) (m : AverageMeter)
    (h : runUpdates AverageMeter.init l = some m) :
    m.sum = (l.map (fun vw => vw.1 * vw.2)).sum ∧
    m.count = (l.map Prod.snd).sum ∧
    (0 < m.count → m.avg = m.sum / m.count) ∧
    (∀ m2 : AverageMeter,
      m2.reset.val = 0 ∧ m2.reset.avg = 0 ∧ m2.reset.sum = 0 ∧ m2.reset.count = 0) := by
  obtain ⟨h1, h2, h3⟩ := runUpdates_invariant l AverageMeter.init m h
  simp only [AverageMeter.init] at h1 h2
  refine ⟨by simpa using h1, by simpa using h2, ?_, ?_⟩
  · intro hpos
    rcases h3 with h3 | h3
    · rw [h3] at hpos
      simp [AverageMeter.init] at hpos
    · exact h3
  · intro m2
    simp [AverageMeter.reset]

/-- Witness for C3 at the sequence `[(2, 1)]`. -/
theorem averageMeter_spec_witness :
    runUpdates AverageMeter.init [(2, 1)] = some ⟨2, 2, 2, 1⟩ ∧
    ((⟨2, 2, 2, 1⟩ : AverageMeter).sum =
        (([((2:ℚ), (1:ℚ))]).map (fun vw => vw.1 * vw.2)).sum ∧
      (⟨2, 2, 2, 1⟩ : AverageMeter).count = (([((2:ℚ), (1:ℚ))]).map Prod.snd).sum ∧
      (0 < (⟨2, 2, 2, 1⟩ : AverageMeter).count →
        (⟨2, 2, 2, 1⟩ : AverageMeter).avg =
          (⟨2, 2, 2, 1⟩ : AverageMeter).sum / (⟨2, 2, 2, 1⟩ : AverageMeter).count) ∧
      (∀ m2 : AverageMeter,
        m2.reset.val = 0 ∧ m2.reset.avg = 0 ∧ m2.reset.sum = 0 ∧ m2.reset.count = 0)) :=
  ⟨by simp [runUpdates, AverageMeter.update, AverageMeter.init],
   averageMeter_spec [(2, 1)] ⟨2, 2, 2, 1⟩
     (by simp [runUpdates, AverageMeter.update, AverageMeter.init])⟩

/-- C4, counterexample: `update(5, 0)` from the reset state (count = 0)
raises `ZeroDivisionError` (`none`), refuting "legal and raises no error
in every state". -/
theorem averageMeter_update_zero_cex :
    AverageMeter.update AverageMeter.init 5 0 = none := by
  simp [AverageMeter.update, AverageMeter.init]

/-- C4, amended: `update(value, 0)` with `count > 0` succeeds and leaves
`sum`, `count` (and hence the mean `sum / count`) unchanged; with
`count = 0` it raises `ZeroDivisionError` instead of leaving the mean at
its previous value. -/
theorem averageMeter_update_zero (m : AverageMeter) (v : ℚ) :
    (0 < m.count → m.update v 0 = some ⟨v, m.sum / m.count, m.sum, m.count⟩) ∧
    (0 < m.count → m.avg = m.sum / m.count →
      m.update v 0 = some ⟨v, m.avg, m.sum, m.count⟩) ∧
    (m.count = 0 → m.update v 0 = none) := by
  refine ⟨fun hpos => ?_, fun hpos havg => ?_, fun hzero => ?_⟩
  · simp [AverageMeter.update, hpos.ne']
  · simp [AverageMeter.update, hpos.ne', havg]
  · simp [AverageMeter.update, hzero]

/-- Witness for C4 (amended) at the state `⟨2, 2, 2, 1⟩` and value `7`. -/
theorem averageMeter_update_zero_witness :
    (0 < (⟨2, 2, 2, 1⟩ : AverageMeter).count ∧
      (⟨2, 2, 2, 1⟩ : AverageMeter).avg =
        (⟨2, 2, 2, 1⟩ : AverageMeter).sum / (⟨2, 2, 2, 1⟩ : AverageMeter).count) ∧
    AverageMeter.update ⟨2, 2, 2, 1⟩ 7 0 = some ⟨7, 2, 2, 1⟩ := by
  refine ⟨⟨by decide, by simp⟩, ?_⟩
  have h := (averageMeter_update_zero ⟨2, 2, 2, 1⟩ 7).2.1 (by decide) (by simp)
  simpa using h

/-- C10: `StepMinLr` truncates its step count toward zero:
`steps = trunc((epoch - start_epoch) / epochs_pro_decay)`, so on every
epoch strictly between `start_epoch - epochs_pro_decay` and `start_epoch`
the step count is `0` and the pre-floor rate equals `init_lr` (floor
division toward negative infinity would give step `-1` there). -/
theorem stepMinLr_trunc (c : StepMinLr) (epoch : ℤ) :
    c.steps epoch = (epoch - c.start_epoch).tdiv c.epochs_pro_decay ∧
    (c.start_epoch - c.epochs_pro_decay < epoch → epoch < c.start_epoch →
      c.steps epoch = 0 ∧ c.rawLr epoch = c.init_lr) := by
  refine ⟨rfl, fun h1 h2 => ?_⟩
  have hz : c.steps epoch = 0 :=
    tdiv_eq_zero_of_neg_window (x := epoch - c.start_epoch) (by omega) (by omega)
  refine ⟨hz, ?_⟩
  rw [StepMinLr.rawLr, hz, zpow_zero, mul_one]

/-- Witness for C10 at `start_epoch = 10`, `epochs_pro_decay = 2`,
`epoch = 9`. -/
theorem stepMinLr_trunc_witness :
    ((10:ℤ) - 2 < 9 ∧ (9:ℤ) < 10) ∧
    (StepMinLr.steps ⟨10, 1, 2, 1, none⟩ 9 = 0 ∧
      StepMinLr.rawLr ⟨10, 1, 2, 1, none⟩ 9 = (1:ℚ)) :=
  ⟨⟨by decide, by decide⟩,
   (stepMinLr_trunc ⟨10, 1, 2, 1, none⟩ 9).2 (by decide) (by decide)⟩

/-- C5: for every integer epoch (including `epoch < start_epoch`),
`CyclicLr` computes a non-negative
`cycle_position = (epoch - start_epoch) mod num_epochs_per_cycle` and
returns `init_lr * lr_decay_factor ^ (cycle_position / epochs_pro_decay)`
(floor division); in particular the rate at `start_epoch` and at
`start_epoch + num_epochs_per_cycle` equals `init_lr` (cycle reset). -/
theorem cyclicLr_spec (c : CyclicLr) (epoch : ℤ)
    (hnum : 0 < c.num_epochs_per_cycle) (hdec : 0 < c.epochs_pro_decay) :
    0 ≤ (epoch - c.start_epoch).fmod c.num_epochs_per_cycle ∧
    c.call epoch = c.init_lr * c.lr_decay_factor ^
      (((epoch - c.start_epoch).fmod c.num_epochs_per_cycle).toNat /
        c.epochs_pro_decay.toNat) ∧
    c.call c.start_epoch = c.init_lr ∧
    c.call (c.start_epoch + c.num_epochs_per_cycle) = c.init_lr := by
  have hpos : 0 ≤ (epoch - c.start_epoch).fmod c.num_epochs_per_cycle :=
    Int.fmod_nonneg' _ hnum
  refine ⟨hpos, ?_, ?_, ?_⟩
  · have hcast :
        ((epoch - c.start_epoch).fmod c.num_epochs_per_cycle).tdiv c.epochs_pro_decay =
          ((((epoch - c.start_epoch).fmod c.num_epochs_per_cycle).toNat /
            c.epochs_pro_decay.toNat : ℕ) : ℤ) := by
      rw [Int.ofNat_tdiv, Int.toNat_of_nonneg hpos, Int.toNat_of_nonneg hdec.le]
    rw [CyclicLr.call, hcast, zpow_natCast]
  · simp [CyclicLr.call]
  · simp [CyclicLr.call, add_sub_cancel_left, Int.fmod_self]

/-- Witness for C5 at the default configuration
(`num_epochs_per_cycle = 12`, `epochs_pro_decay = 2`) and epoch `-7`. -/
theorem cyclicLr_spec_witness :
    ((0:ℤ) < 12 ∧ (0:ℤ) < 2) ∧
    (0 ≤ ((-7:ℤ) - 0).fmod 12 ∧
      CyclicLr.call ⟨0, 1, 12, 2, 1⟩ (-7) = 1 * (1:ℚ) ^
        ((((-7:ℤ) - 0).fmod 12).toNat / (2:ℤ).toNat) ∧
      CyclicLr.call ⟨0, 1, 12, 2, 1⟩ 0 = 1 ∧
      CyclicLr.call ⟨0, 1, 12, 2, 1⟩ (0 + 12) = 1) :=
  ⟨⟨by decide, by decide⟩,
   cyclicLr_spec ⟨0, 1, 12, 2, 1⟩ (-7) (by decide) (by decide)⟩

/-- C6, counterexample: the claim quantifies over every configuration
with `0 < decay_factor ≤ 1`; with a negative `init_lr` the schedule is
strictly increasing, so `rate(0) ≥ rate(1)` fails for
`StepMinLr(start_epoch=0, init_lr=-1, epochs_pro_decay=1,
lr_decay_factor=1/2)`: `rate(0) = -1 < rate(1) = -1/2`. -/
theorem stepMinLr_monotone_cex :
    ((0:ℤ) ≤ 1 ∧ 0 < (1/2:ℚ) ∧ (1/2:ℚ) ≤ 1) ∧
    ¬ StepMinLr.call ⟨0, -1, 1, 1/2, none⟩ 1 ≤ StepMinLr.call ⟨0, -1, 1, 1/2, none⟩ 0 := by
  refine ⟨⟨by decide, by norm_num, by norm_num⟩, ?_⟩
  norm_num [StepMinLr.call, StepMinLr.rawLr, StepMinLr.steps]

/-- C6, amended: with `0 < decay_factor ≤ 1`, non-negative `init_lr` and
positive `epochs_pro_decay`, the step-with-minimum schedule is
monotonically non-increasing in the epoch, with or without a `min_lr`
floor. -/
theorem stepMinLr_monotone (c : StepMinLr) (e1 e2 : ℤ)
    (hd0 : 0 < c.lr_decay_factor) (hd1 : c.lr_decay_factor ≤ 1)
    (hinit : 0 ≤ c.init_lr) (hepd : 0 < c.epochs_pro_decay) (h12 : e1 ≤ e2) :
    c.call e2 ≤ c.call e1 := by
  have hs : c.steps e1 ≤ c.steps e2 := tdiv_le_tdiv_of_le hepd (by omega)
  have hz : c.lr_decay_factor ^ c.steps e2 ≤ c.lr_decay_factor ^ c.steps e1 :=
    zpow_le_zpow_right_of_le_one₀ hd0 hd1 hs
  have hr : c.rawLr e2 ≤ c.rawLr e1 := mul_le_mul_of_nonneg_left hz hinit
  unfold StepMinLr.call
  cases c.min_lr with
  | none => exact hr
  | some m => exact max_le_max hr le_rfl

/-- Witness for C6 (amended) at `decay_factor = 1`, epochs `3 ≤ 7`. -/
theorem stepMinLr_monotone_witness :
    ((0:ℚ) < 1 ∧ (1:ℚ) ≤ 1 ∧ (0:ℚ) ≤ 1 ∧ (0:ℤ) < 2 ∧ (3:ℤ) ≤ 7) ∧
    StepMinLr.call ⟨0, 1, 2, 1, none⟩ 7 ≤ StepMinLr.call ⟨0, 1, 2, 1, none⟩ 3 :=
  ⟨⟨by decide, by decide, by decide, by decide, by decide⟩,
   stepMinLr_monotone ⟨0, 1, 2, 1, none⟩ 3 7
     (by decide) (by decide) (by decide) (by decide) (by decide)⟩

/-- C7: whenever a floor `min_lr = m` is configured, the returned rate is
`max(init_lr * decay_factor ^ steps, m)`, hence never below `m`; in
particular with `init_lr = 1`, `decay_factor = 1/2`, `epochs_pro_decay = 1`,
`min_lr = 1/10`, `start_epoch = 0`, the rate at epoch `10` is `1/10`,
not `(1/2) ^ 10`. -/
theorem stepMinLr_floor :
    (∀ (c : StepMinLr) (m : ℚ) (epoch : ℤ), c.min_lr = some m →
      c.call epoch = max (c.rawLr epoch) m ∧ m ≤ c.call epoch) ∧
    StepMinLr.call ⟨0, 1, 1, 1/2, some (1/10)⟩ 10 = 1/10 := by
  constructor
  · intro c m epoch hm
    rw [StepMinLr.call, hm]
    exact ⟨rfl, le_max_right _ _⟩
  · norm_num [StepMinLr.call, StepMinLr.rawLr, StepMinLr.steps]

/-- Witness for C7 at `min_lr = 1`, epoch `5`. -/
theorem stepMinLr_floor_witness :
    StepMinLr.call ⟨0, 1, 1, 1, some 1⟩ 5 =
      max (StepMinLr.rawLr ⟨0, 1, 1, 1, some 1⟩ 5) 1 ∧
    (1:ℚ) ≤ StepMinLr.call ⟨0, 1, 1, 1, some 1⟩ 5 :=
  stepMinLr_floor.1 ⟨0, 1, 1, 1, some 1⟩ 1 5 rfl

/-! ## TopKAccuracy: `accuracy` (src/utils.py lines 34-48) -/

/-- Score of class `i` in a row (`0` out of range; rows are only read at
indices below their length). -/
def scoreAt (row : List ℚ) (i : ℕ) : ℚ := row.getD i 0

/-- The total order modelling `output.topk(maxk, 1, True, True)` on one
row: class `i` precedes class `j` when its score is strictly larger, with
ties broken deterministically toward the lower index.  (`torch.topk`
returns the `maxk` largest scores in descending order; its tie-break is
implementation-defined and is modelled as lowest-index-first.) -/
def idxLe (row : List ℚ) (i j : ℕ) : Prop :=
  scoreAt row j < scoreAt row i ∨ (scoreAt row i = scoreAt row j ∧ i ≤ j)

instance (row : List ℚ) : DecidableRel (idxLe row) := fun i j => by
  unfold idxLe
  infer_instance

instance (row : List ℚ) : IsTotal ℕ (idxLe row) where
  total i j := by
    rcases lt_trichotomy (scoreAt row i) (scoreAt row j) with h | h | h
    · exact Or.inr (Or.inl h)
    · rcases le_total i j with hij | hij
      · exact Or.inl (Or.inr ⟨h, hij⟩)
      · exact Or.inr (Or.inr ⟨h.symm, hij⟩)
    · exact Or.inl (Or.inl h)

instance (row : List ℚ) : IsTrans ℕ (idxLe row) where
  trans i j k hij hjk := by
    rcases hij with h1 | ⟨h1, h1'⟩ <;> rcases hjk with h2 | ⟨h2, h2'⟩
    · exact Or.inl (h2.trans h1)
    · exact Or.inl (h2 ▸ h1)
    · exact Or.inl (lt_of_lt_of_eq h2 h1.symm)
    · exact Or.inr ⟨h1.trans h2, h1'.trans h2'⟩

/-- The class indices of one row sorted by descending score (ties: lower
index first): the column order of `output.topk(maxk, 1, True, True)`
before truncation to the first `maxk` entries. -/
def sortIdx (row : List ℚ) : List ℕ :=
  List.insertionSort (idxLe row) (List.range row.length)

/-- The rows of `pred` (lines 40-41; the transpose `pred.t()` only
re-indexes): for each example, its `maxk` highest-scoring class indices
in descending score order. -/
def predRows (output : List (List ℚ)) (maxk : ℕ) : List (List ℕ) :=
  output.map (fun row => (sortIdx row).take maxk)

/-- Lines 42-46, `correct[:k].view(-1).float().sum(0)`: the number of
pairs (rank `r < k`, example `i`) with `pred[r][i] == target[i]`, i.e.
the summed multiplicity of each example's label among its first `k`
predictions. -/
def correctSum (pred : List (List ℕ)) (target : List ℕ) (k : ℕ) : ℕ :=
  ((List.zip pred target).map (fun pt => (pt.1.take k).count pt.2)).sum

/-- The function `accuracy(output, target, topk)` (lines 34-48): `maxk = max(topk)`
(Python `max` of a non-empty tuple, modelled by `foldl max 0`), and each
requested `k` yields `correct_k * (100.0 / batch_size)` in the order
given. -/
def accuracy (output : List (List ℚ)) (target : List ℕ) (topk : List ℕ) : List ℚ :=
  let maxk := topk.foldl max 0
  let pred := predRows output maxk
  topk.map (fun k => (correctSum pred target k : ℚ) * (100 / (target.length : ℚ)))

/-- Spec-side count ("correct at k"): the number of examples whose true
label appears among that example's `k` highest-scored class indices. -/
def correctAtK (output : List (List ℚ)) (target : List ℕ) (k : ℕ) : ℕ :=
  (List.zip output target).countP (fun rt => decide (rt.2 ∈ (sortIdx rt.1).take k))

theorem foldl_max_le_init (l : List ℕ) (a : ℕ) : a ≤ l.foldl max a := by
  induction l generalizing a with
  | nil => simp
  | cons b tl ih => exact le_trans (le_max_left a b) (ih (max a b))

theorem le_foldl_max (l : List ℕ) (a k : ℕ) (h : k ∈ l) : k ≤ l.foldl max a := by
  induction l generalizing a with
  | nil => cases h
  | cons b tl ih =>
    rcases List.mem_cons.mp h with rfl | h2
    · exact le_trans (le_max_right a k) (foldl_max_le_init tl (max a k))
    · exact ih (max a b) h2

theorem sortIdx_nodup (row : List ℚ) : (sortIdx row).Nodup :=
  ((List.perm_insertionSort (idxLe row) (List.range row.length)).nodup_iff).mpr
    (List.nodup_range row.length)

/-- In a duplicate-free list, counting multiplicity is testing
membership. -/
theorem count_take_of_nodup {l : List ℕ} (hl : l.Nodup) (k t : ℕ) :
    (l.take k).count t = if t ∈ l.take k then 1 else 0 := by
  by_cases h : t ∈ l.take k
  · rw [if_pos h,
      List.count_eq_one_of_mem (List.Nodup.sublist (List.take_sublist k l) hl) h]
  · rw [if_neg h, List.count_eq_zero_of_not_mem h]

/-- The flattened sum over `correct[:k]` equals the spec-side per-example
correctness count: within one row the label can occur at most once among
the top-`maxk` predictions (the prediction indices are duplicate-free),
so multiplicity counting collapses to membership counting. -/
theorem correctSum_eq (output : List (List ℚ)) (target : List ℕ) (k maxk : ℕ)
    (hk : k ≤ maxk) :
    correctSum (predRows output maxk) target k = correctAtK output target k := by
  induction output generalizing target with
  | nil => cases target <;> rfl
  | cons row rest ih =>
    cases target with
    | nil => rfl
    | cons t ts =>
      have ihh := ih ts
      simp only [correctSum, correctAtK, predRows, List.map_cons, List.zip_cons_cons,
        List.sum_cons, List.countP_cons] at ihh ⊢
      rw [List.take_take, min_eq_left hk, count_take_of_nodup (sortIdx_nodup row)]
      by_cases h : t ∈ (sortIdx row).take k
      · simp [h, ihh]
        omega
      · simp [h, ihh]

/-- If class `t` has the strictly highest score of its row, it is the
first sorted index: the top-1 prediction. -/
theorem take_one_sortIdx_of_strict_max (row : List ℚ) (t : ℕ) (ht : t < row.length)
    (hmax : ∀ j, j < row.length → j ≠ t → scoreAt row j < scoreAt row t) :
    (sortIdx row).take 1 = [t] := by
  have hperm : List.Perm (sortIdx row) (List.range row.length) :=
    List.perm_insertionSort (idxLe row) (List.range row.length)
  have hsorted : List.Sorted (idxLe row) (sortIdx row) :=
    List.sorted_insertionSort (idxLe row) (List.range row.length)
  have hmem : t ∈ sortIdx row := hperm.mem_iff.mpr (List.mem_range.mpr ht)
  cases hl : sortIdx row with
  | nil => rw [hl] at hmem; cases hmem
  | cons hd tl =>
    rw [hl] at hmem hsorted
    have hht : hd = t := by
      by_contra hne
      have htl : t ∈ tl := by
        rcases List.mem_cons.mp hmem with h1 | h1
        · exact absurd h1.symm hne
        · exact h1
      have hhd : hd < row.length := by
        have : hd ∈ sortIdx row := by rw [hl]; exact List.mem_cons_self hd tl
        exact List.mem_range.mp (hperm.mem_iff.mp this)
      have hrel : idxLe row hd t := List.rel_of_sorted_cons hsorted t htl
      have hlt : scoreAt row hd < scoreAt row t := hmax hd hhd hne
      rcases hrel with hr | ⟨hr, _⟩
      · exact absurd hr (lt_asymm hlt)
      · exact absurd hr (ne_of_lt hlt)
    rw [hht]
    rfl

/-- C8: `accuracy` returns, for each requested `k` in the order given,
`100 × (number of examples whose label is among their k highest-scored
class indices) / (number of examples)`; and when every example's label
has the strictly highest score of its row (valid label indices, non-empty
batch), `accuracy(output, target, (1,))` returns `[100.0]`. -/
theorem accuracy_spec (output : List (List ℚ)) (target : List ℕ) (ks : List ℕ) :
    accuracy output target ks =
      ks.map (fun k =>
        (correctAtK output target k : ℚ) * 100 / (target.length : ℚ)) ∧
    (output.length = target.length → 0 < target.length →
      (∀ rt ∈ List.zip output target, rt.2 < rt.1.length ∧
        ∀ j, j < rt.1.length → j ≠ rt.2 → scoreAt rt.1 j < scoreAt rt.1 rt.2) →
      accuracy output target [1] = [100]) := by
  have hgen : ∀ ks2 : List ℕ, accuracy output target ks2 =
      ks2.map (fun k =>
        (correctAtK output target k : ℚ) * 100 / (target.length : ℚ)) := by
    intro ks2
    unfold accuracy
    refine List.map_congr_left (fun k hk => ?_)
    rw [correctSum_eq output target k (ks2.foldl max 0) (le_foldl_max ks2 0 k hk)]
    rw [mul_div_assoc]
  refine ⟨hgen ks, fun hlen hpos hmax => ?_⟩
  rw [hgen [1]]
  simp only [List.map_cons, List.map_nil]
  have hcorr : correctAtK output target 1 = target.length := by
    unfold correctAtK
    rw [List.countP_eq_length.mpr, List.length_zip, hlen, min_self]
    intro rt hrt
    obtain ⟨h1, h2⟩ := hmax rt hrt
    rw [take_one_sortIdx_of_strict_max rt.1 rt.2 h1 h2]
    simp
  rw [hcorr]
  have hne : ((target.length : ℚ)) ≠ 0 := by
    exact_mod_cast Nat.pos_iff_ne_zero.mp hpos
  rw [mul_comm, mul_div_assoc, div_self hne, mul_one]

/-- Witness for C8 at `output = [[3, 1], [0, 2]]`, `target = [0, 1]`,
`topk = (1,)`. -/
theorem accuracy_spec_witness :
    (([[(3:ℚ), 1], [0, 2]] : List (List ℚ)).length = ([0, 1] : List ℕ).length ∧
      0 < ([0, 1] : List ℕ).length) ∧
    accuracy [[3, 1], [0, 2]] [0, 1] [1] =
      [1].map (fun k =>
        (correctAtK [[3, 1], [0, 2]] [0, 1] k : ℚ) * 100 /
          (([0, 1] : List ℕ).length : ℚ)) ∧
    accuracy [[3, 1], [0, 2]] [0, 1] [1] = [100] :=
  ⟨⟨by decide, by decide⟩,
   (accuracy_spec [[3, 1], [0, 2]] [0, 1] [1]).1,
   (accuracy_spec [[3, 1], [0, 2]] [0, 1] [1]).2 (by decide) (by decide) (by decide)⟩

/-- C9: after a successful `save_checkpoint`, the file-system map holds
the serialized state at `filepath`; when `is_best` it additionally holds
the same content at the derived sibling path
`model_best{best_suffix}.pth.tar` (so both deserialize to `state`); when
`is_best` is false nothing besides `filepath` is written. -/
theorem save_checkpoint_spec {α : Type} (fs : FileSystem α) (state : α)
    (is_best : Bool) (filepath best_suffix : String)
    (hok : is_best = false ∨ bestPath filepath best_suffix ≠ filepath) :
    ∃ fs2, save_checkpoint fs state is_best filepath best_suffix = some fs2 ∧
      fs2 filepath = some state ∧
      (is_best = true → fs2 (bestPath filepath best_suffix) = some state) ∧
      (is_best = false → ∀ q, q ≠ filepath → fs2 q = fs q) := by
  cases is_best with
  | false =>
    refine ⟨fun q => if q = filepath then some state else fs q, rfl, ?_, ?_, ?_⟩
    · simp
    · intro h
      cases h
    · intro _ q hq
      simp [hq]
  | true =>
    have hne : bestPath filepath best_suffix ≠ filepath := by
      rcases hok with h | h
      · cases h
      · exact h
    have hstep : save_checkpoint fs state true filepath best_suffix =
        some (fun q => if q = bestPath filepath best_suffix then some state
          else if q = filepath then some state else fs q) := by
      simp [save_checkpoint, hne]
    refine ⟨_, hstep, ?_, ?_, ?_⟩
    · rw [if_neg (fun h => hne h.symm), if_pos rfl]
    · intro _
      rw [if_pos rfl]
    · intro h
      cases h

/-- Witness for C9 with `is_best = true`,
`filepath = "dir/checkpoint.pth.tar"`, `best_suffix = "_x"`. -/
theorem save_checkpoint_spec_witness :
    bestPath ("dir/checkpoint.pth.tar") ("_x") ≠ "dir/checkpoint.pth.tar" ∧
    (∃ fs2, save_checkpoint (fun _ => none) (42:ℕ) true
        "dir/checkpoint.pth.tar" "_x" = some fs2 ∧
      fs2 ("dir/checkpoint.pth.tar") = some 42 ∧
      (true = true → fs2 (bestPath ("dir/checkpoint.pth.tar") ("_x")) = some 42) ∧
      (true = false → ∀ q, q ≠ "dir/checkpoint.pth.tar" →
        fs2 q = (fun _ => none : FileSystem ℕ) q)) :=
  ⟨by decide,
   save_checkpoint_spec (fun _ => none) 42 true ("dir/checkpoint.pth.tar") ("_x")
     (Or.inr (by decide))⟩

/-! ## TimedScope: `timed_operation` (src/utils.py lines 83-119) -/

/-- A log line printed by `timed_operation`: the optional start line
(line 105) or the completion line (lines 118-119), the latter carrying
the elapsed duration already divided by the unit divisor `ns` (the
`'{:.4f}'` float formatting is abstracted; the exact rational duration is
recorded). -/
inductive LogEvent where
  | start (msg : String)
  | finished (msg : String) (duration : ℚ) (tformat : String)
deriving DecidableEq

/-- Lines 108-117: the divisor `ns` for the requested unit.  The first
conditional of line 108 (`if tformat == 's': ns = 1.`) is a separate
statement, not part of the `if/elif/else` chain of lines 110-117, so
`"s"` falls through to the chain's `else` branch and raises
`ValueError('Unknown tformat=s')` — after the dead store to `ns`,
kept here as `_ns`. -/
def tformatDivisor (tformat : String) : Except String ℚ :=
  let _ns : Option ℚ := if tformat = "s" then some 1 else none
  if tformat = "m" then Except.ok 60
  else if tformat = "h" then Except.ok (60 ^ 2)
  else if tformat = "d" then Except.ok (60 ^ 2 * 24)
  else Except.error ("Unknown tformat=" ++ tformat)

/-- The context manager `timed_operation(msg, log_start, tformat)` as a function of the
enclosed operation's outcome (`body`) and its measured wall-clock
duration (`elapsed`): returns the printed log lines and either normal
completion, the body's exception propagated unchanged (`Sum.inl`; the
`yield` of line 107 is not wrapped in `try/finally`, so lines 108-119 are
skipped in that case), or the `ValueError` of line 117 (`Sum.inr`). -/
def timed_operation {ε : Type} (msg : String) (log_start : Bool) (tformat : String)
    (body : Except ε Unit) (elapsed : ℚ) :
    List LogEvent × Except (ε ⊕ String) Unit :=
  let pre : List LogEvent := if log_start then [LogEvent.start msg] else []
  match body with
  | Except.error e => (pre, Except.error (Sum.inl e))
  | Except.ok _ =>
    match tformatDivisor tformat with
    | Except.error v => (pre, Except.error (Sum.inr v))
    | Except.ok ns =>
      (pre ++ [LogEvent.finished msg (elapsed / ns) tformat], Except.ok ())

/-- C1 (code bug): with the unit `"s"` (the default) and a normally
completing body, `timed_operation` raises `ValueError('Unknown tformat=s')`
and prints no completion line — contradicting the claim and the
function's own docstring example — while `"m"`, `"h"`, `"d"` complete
normally with divisors `60`, `3600`, `86400`, and an unrecognized unit
fails with the `ValueError` and no timing output. -/
theorem timed_operation_unit_bug (ε : Type) (msg : String) (elapsed : ℚ) :
    timed_operation (ε := ε) msg false ("s") (Except.ok ()) elapsed =
      ([], Except.error (Sum.inr ("Unknown tformat=s"))) ∧
    timed_operation (ε := ε) msg false ("m") (Except.ok ()) elapsed =
      ([LogEvent.finished msg (elapsed / 60) ("m")], Except.ok ()) ∧
    timed_operation (ε := ε) msg false ("h") (Except.ok ()) elapsed =
      ([LogEvent.finished msg (elapsed / 3600) ("h")], Except.ok ()) ∧
    timed_operation (ε := ε) msg false ("d") (Except.ok ()) elapsed =
      ([LogEvent.finished msg (elapsed / 86400) ("d")], Except.ok ()) ∧
    timed_operation (ε := ε) msg false ("x") (Except.ok ()) elapsed =
      ([], Except.error (Sum.inr ("Unknown tformat=x"))) := by
  refine ⟨rfl, ?_, ?_, ?_, rfl⟩ <;> norm_num +decide [timed_operation, tformatDivisor]

/-- C2, counterexample: with the recognized unit `"m"` and a body that
raises, the exception propagates but no completion line is logged (the
log is exactly the start line), refuting "the elapsed-time computation
and the completion log line still fire". -/
theorem timed_operation_exception_cex :
    timed_operation ("job") true ("m") (Except.error (0:ℕ)) 5 =
      ([LogEvent.start ("job")], Except.error (Sum.inl 0)) := rfl

/-- C2, amended: when the enclosed operation raises, the same exception
propagates to the caller, but the elapsed-time computation and the
completion log do NOT fire — only the optional start line is printed
(the `yield` of line 107 is not guarded by `try/finally`). -/
theorem timed_operation_exception (ε : Type) (msg : String) (log_start : Bool)
    (tformat : String) (e : ε) (elapsed : ℚ) :
    timed_operation msg log_start tformat (Except.error e) elapsed =
      ((if log_start then [LogEvent.start msg] else []),
        Except.error (Sum.inl e)) := rfl
